import Mathlib

/-!
Verification of the five-stage survey-processing pipeline
(`ReplicationProcessing_2022-12.py`).

A pandas `DataFrame` is embedded as a list of rows, each row an association
list from column names to cell values.  A cell is a rational number (finite
floats of the source data), a text string, the missing marker `NaN`, or —
only in the two standard-deviation result columns written by stage 4 — the
exact square root `√q` of a rational sample variance, represented
symbolically because `ℚ` is not closed under square roots.
-/

/-- A cell of a table.  `num q` is a numeric value, `str s` a text value,
`missing` is pandas' `NaN`, and `sqrtv q` represents the real number `√q`
(written only by the `.std(axis=1)` aggregation of stage 4). -/
inductive Val where
  | num (q : ℚ)
  | str (s : String)
  | sqrtv (q : ℚ)
  | missing
  deriving DecidableEq

/-- One respondent's row: an association list from column name to value. -/
abbrev Row := List (String × Val)

/-- A table: the ordered rows of one data file. -/
abbrev Table := List Row

/-- Value of column `c` in row `r`; absent columns read as `missing`
(pandas cells of a rectangular frame are always present, so this default is
only exercised on ragged rows that a real frame cannot produce). -/
def getVal (r : Row) (c : String) : Val :=
  match r with
  | [] => Val.missing
  | (n, v) :: rest => if n = c then v else getVal rest c

/-- `df[c] = v` for one row: overwrite the value of column `c`, appending
the column at the end when it does not exist yet (pandas appends new
columns on assignment). -/
def setVal (r : Row) (c : String) (v : Val) : Row :=
  match r with
  | [] => [(c, v)]
  | (n, w) :: rest => if n = c then (c, v) :: rest else (n, w) :: setVal rest c v

/-- Rewrite every cell of a row through a column-indexed function,
keeping the column names. -/
def mapVals (g : String → Val → Val) (r : Row) : Row :=
  r.map (fun p => (p.1, g p.1 p.2))

/-- `c in df.columns`: the table has a column named `c`. -/
def hasCol (t : Table) (c : String) : Bool :=
  t.any (fun r => r.any (fun p => p.1 == c))

/-- A base cell: anything a raw data file can contain (no symbolic `√`). -/
def baseVal : Val → Bool
  | Val.sqrtv _ => false
  | _ => true

/-- A row of base cells. -/
def baseRow (r : Row) : Bool := r.all (fun p => baseVal p.2)

/-- A table of base cells, as read from a raw data file. -/
def BaseTable (t : Table) : Bool := t.all baseRow

/-- Numeric value of a decimal digit. -/
def digitVal (c : Char) : Option Nat :=
  if '0' ≤ c ∧ c ≤ '9' then some (c.toNat - '0'.toNat) else none

/-- Value of a nonempty all-digit character list. -/
def digitsVal (cs : List Char) : Option Nat :=
  if cs.isEmpty then none
  else cs.foldl (fun acc c =>
    match acc, digitVal c with
    | some a, some d => some (a * 10 + d)
    | _, _ => none) (some 0)

/-- Unsigned decimal literal, with an optional fractional part
(`"12"`, `"12.5"`, `"12."`, `".5"`).  Scientific notation, which the
pipeline's data never uses, is not modelled. -/
def parseUnsigned (cs : List Char) : Option ℚ :=
  let intPart := cs.takeWhile (fun c => c ≠ '.')
  match cs.dropWhile (fun c => c ≠ '.') with
  | [] => (digitsVal intPart).map (fun n => (n : ℚ))
  | _ :: frac =>
    match digitsVal intPart, digitsVal frac with
    | some a, some b => some ((a : ℚ) + (b : ℚ) / ((10 : ℚ) ^ frac.length))
    | some a, none => if frac.isEmpty then some ((a : ℚ)) else none
    | none, some b => if intPart.isEmpty then some ((b : ℚ) / ((10 : ℚ) ^ frac.length)) else none
    | none, none => none

/-- Parse a decimal numeral with an optional sign. -/
def parseNumQ (s : String) : Option ℚ :=
  match s.data with
  | '-' :: rest => (parseUnsigned rest).map (fun q => -q)
  | '+' :: rest => parseUnsigned rest
  | cs => parseUnsigned cs

/-- `pd.to_numeric(·, errors='coerce')` on one cell: numbers stay
themselves, numeric text becomes its value, anything else becomes `NaN`. -/
def toNumeric : Val → Val
  | Val.num q => Val.num q
  | Val.sqrtv q => Val.sqrtv q
  | Val.str s =>
    match parseNumQ s with
    | some q => Val.num q
    | none => Val.missing
  | Val.missing => Val.missing

/-- The comparison `v > c` of a coerced cell against a numeric constant;
`NaN > c` is `False` in pandas.  For the symbolic cell `√q` (with `q < 0`
standing for `NaN`): `√q > c` iff `q ≥ 0` and (`c < 0` or `c² < q`). -/
def valGT (v : Val) (c : ℚ) : Bool :=
  match v with
  | Val.num q => decide (c < q)
  | Val.sqrtv q => decide (0 ≤ q) && (decide (c < 0) || decide (c ^ 2 < q))
  | _ => false

/-- The comparison `v < c`; `NaN < c` is `False`.
For `√q`: `√q < c` iff `q ≥ 0`, `c ≥ 0` and `q < c²`. -/
def valLT (v : Val) (c : ℚ) : Bool :=
  match v with
  | Val.num q => decide (q < c)
  | Val.sqrtv q => decide (0 ≤ q) && decide (0 ≤ c) && decide (q < c ^ 2)
  | _ => false

/-- The comparison `v == c` of a coerced cell with a constant; `NaN == c`
is `False`.  `√q = c` iff `q ≥ 0`, `c ≥ 0` and `q = c²`. -/
def valEq (v : Val) (c : ℚ) : Bool :=
  match v with
  | Val.num q => decide (q = c)
  | Val.sqrtv q => decide (0 ≤ q) && decide (0 ≤ c) && decide (q = c ^ 2)
  | _ => false

/-- `v - c` on coerced cells: `NaN - c = NaN`.  A `√q` cell can only be
shifted exactly when `c = 0`; the nonzero case cannot arise in the
pipeline, where the standard-deviation columns are written only after
every arithmetic step, and is mapped to `missing`. -/
def valSub (v : Val) (c : ℚ) : Val :=
  match v with
  | Val.num q => Val.num (q - c)
  | Val.sqrtv q => if c = 0 then Val.sqrtv q else Val.missing
  | _ => Val.missing

/-- `v + w` on coerced cells, as in the stage-4 column sums: defined only
when both operands are numbers, `NaN` otherwise (strict summation; the
sums run after the bulk coercion, so text never reaches them, and the
irrational `√q` cells — unrepresentable in `ℚ` under `+`, and written
after the sums in the pipeline — are also mapped to `missing`). -/
def valAdd (v w : Val) : Val :=
  match v, w with
  | Val.num a, Val.num b => Val.num (a + b)
  | _, _ => Val.missing

/-- A cell pandas counts as missing: `NaN`, or a `√q` cell with `q < 0`
(the square root of a negative variance, which cannot arise). -/
def isNA : Val → Bool
  | Val.missing => true
  | Val.sqrtv q => decide (q < 0)
  | _ => false

/-- A numeric cell. -/
def isNum : Val → Bool
  | Val.num _ => true
  | _ => false

/-- The rational value of a coerced cell, when it has one. -/
def cellQ : Val → Option ℚ
  | Val.num q => some q
  | _ => none

/-- `df['SubID'] = range(k, len(df) + k)`: assign sequential identifiers
starting at `k` in row order. -/
def addSubIDs (k : ℕ) : Table → Table
  | [] => []
  | r :: rest => setVal r "SubID" (Val.num (k : ℚ)) :: addSubIDs (k + 1) rest

/-- The record-retention predicate of stage 1: both gatekeeping columns,
after numeric coercion, strictly exceed their thresholds. -/
def passes (r : Row) : Bool :=
  valGT (toNumeric (getVal r "Progress")) 99 && valGT (toNumeric (getVal r "Q3")) 18

/-- STAGE 1 (lines 18-33): drop the row at positional index 1
(`df.drop(df.index[1])`, an `IndexError` when the table has fewer than two
rows), coerce `Progress` and `Q3` to numeric (a `KeyError` when either
column is absent), keep the rows with `Progress > 99` and `Q3 > 18`, and
assign `SubID = 1, 2, ...` over the survivors.  `none` models the raised
exception. -/
def STAGE1 (df : Table) : Option Table :=
  if 2 ≤ df.length then
    let t1 := df.eraseIdx 1
    if hasCol t1 "Progress" && hasCol t1 "Q3" then
      let t2 := t1.map (fun r => setVal r "Progress" (toNumeric (getVal r "Progress")))
      let t3 := t2.map (fun r => setVal r "Q3" (toNumeric (getVal r "Q3")))
      let t4 := t3.filter (fun r => valGT (getVal r "Progress") 99)
      let t5 := t4.filter (fun r => valGT (getVal r "Q3") 18)
      some (addSubIDs 1 t5)
    else none
  else none

/-- The state of the caller's table object after a successful `STAGE1`
call.  The row drop (line 20, `inplace=True`) and the two column
assignments (lines 23-24) mutate the frame passed in; the boolean-mask
filters (lines 27-28) rebind the local name to a fresh frame, so the
filtering and the `SubID` column never reach the caller's object. -/
def STAGE1arg (df : Table) : Option Table :=
  if 2 ≤ df.length then
    let t1 := df.eraseIdx 1
    if hasCol t1 "Progress" && hasCol t1 "Q3" then
      some ((t1.map (fun r => setVal r "Progress" (toNumeric (getVal r "Progress")))).map
        (fun r => setVal r "Q3" (toNumeric (getVal r "Q3"))))
    else none
  else none

/-- The new name of a column under the stage-2 `renaming_dict`
(`Q4 → Gender`, `Q5 → Education`, `Q6 → Native Language`); every other
name passes through. -/
def renameKey (n : String) : String :=
  if n = "Q4" then "Gender"
  else if n = "Q5" then "Education"
  else if n = "Q6" then "Native Language"
  else n

/-- `df.rename(columns=renaming_dict)` on one row. -/
def renameRow (r : Row) : Row := r.map (fun p => (renameKey p.1, p.2))

/-- Lookup in the stage-2 `recode_dict`: the ordinal code (as a string)
for a raw categorical text value of the given column, `none` when the
column or the value is not in the dictionary. -/
def recodeLookup (col s : String) : Option String :=
  if col = "Gender" then
    if s = "Male" then some "1"
    else if s = "Female" then some "2"
    else if s = "I do not identify with one of the above categories" then some "3"
    else none
  else if col = "Education" then
    if s = "Other" then some "1"
    else if s = "Compulsory education (e.g., primary school, high school, ...)" then some "2"
    else if s = "Higher education (e.g., bachelor, master, Ph.D., ...)" then some "3"
    else none
  else if col = "Native Language" then
    if s = "Other" then some "1"
    else if s = "English" then some "2"
    else none
  else none

/-- `df.replace(recode_dict)` on one cell: only text cells whose value is
a dictionary key of their column are replaced; everything else passes
through unchanged. -/
def recodeVal (col : String) (v : Val) : Val :=
  match v with
  | Val.str s =>
    match recodeLookup col s with
    | some code => Val.str code
    | none => v
  | _ => v

/-- `df.replace(recode_dict)` on one row. -/
def recodeRow (r : Row) : Row := mapVals recodeVal r

/-- STAGE 2 (lines 37-54): rename the demographic columns, then recode
their categorical text values to ordinal string codes. -/
def STAGE2 (df : Table) : Table := df.map (fun r => recodeRow (renameRow r))

/-- The twelve result columns allocated by stage 3 (lines 60-65). -/
def newCols : List String :=
  ["Animate (average interaction rating)", "Animate (SD)", "Animate (n)",
   "Inanimate (average interaction rating)", "Inanimate (SD)", "Inanimate (n)",
   "Filler score (correct)", "Filler score (incorrect)", "Filler score",
   "Words (pre-processed)", "Words (incorrectly spelled)", "Words (corrected spelling)"]

/-- The bookkeeping columns removed by stage 3 (lines 70-73). -/
def remCols : List String :=
  ["StartDate", "EndDate", "Status", "Progress", "Duration (in seconds)",
   "Finished", "RecordedDate", "ResponseId", "DistributionChannel", "UserLanguage"]

/-- STAGE 3 (lines 58-76): allocate the result columns initialized to
`NaN`, then drop the bookkeeping columns (`errors='ignore'`: absent
columns are skipped silently). -/
def STAGE3 (df : Table) : Table :=
  df.map (fun r =>
    (newCols.foldl (fun r2 c => setVal r2 c Val.missing) r).filter
      (fun p => !(remCols.contains p.1)))

/-- The filler-item columns `['Q' + str(i) for i in range(36, 56)]`,
i.e. `Q36 .. Q55` (line 83). -/
def clampCols : List String :=
  ["Q36", "Q37", "Q38", "Q39", "Q40", "Q41", "Q42", "Q43", "Q44", "Q45",
   "Q46", "Q47", "Q48", "Q49", "Q50", "Q51", "Q52", "Q53", "Q54", "Q55"]

/-- Lines 84-86 on one cell: coerce to numeric, then
`np.where(v > 1, 1, v)` followed by `np.where(v < 0, 0, v)`
(`NaN` compares false, so `NaN` stays `NaN`). -/
def clamp01 (v : Val) : Val :=
  let v1 := toNumeric v
  let v2 := if valGT v1 1 then Val.num 1 else v1
  if valLT v2 0 then Val.num 0 else v2

/-- Lines 82-91 on one row: clamp the filler-item columns, then coerce
every column except the free-text column `Q56` to numeric. -/
def stage4Coerce (r : Row) : Row :=
  mapVals (fun c v => if c == "Q56" then v else toNumeric v)
    (mapVals (fun c v => if clampCols.contains c then clamp01 v else v) r)

/-- Lines 94-96 on one cell: `np.where(v != 1, v - 7, v)`; `NaN != 1` is
`True`, and `NaN - 7 = NaN`. -/
def adjQ11 (v : Val) : Val := if valEq v 1 then v else valSub v 7

/-- The animate interaction ItemGroup (line 99). -/
def animateCols : List String :=
  ["Q10", "Q11", "Q12", "Q13", "Q14", "Q15", "Q16", "Q17", "Q18", "Q19", "Q20", "Q21"]

/-- The inanimate interaction ItemGroup (line 103). -/
def inanimateCols : List String :=
  ["Q22", "Q23", "Q24", "Q25", "Q26", "Q27", "Q28", "Q29", "Q30", "Q31", "Q32", "Q33"]

/-- The correct-filler ItemGroup (line 108, 11 items). -/
def correctCols : List String :=
  ["Q36", "Q37", "Q38", "Q39", "Q40", "Q41", "Q42", "Q43", "Q44", "Q45", "Q46"]

/-- The incorrect-filler ItemGroup (line 109, 9 items). -/
def incorrectCols : List String :=
  ["Q47", "Q48", "Q49", "Q50", "Q51", "Q52", "Q53", "Q54", "Q55"]

/-- `.count(axis=1)` over the given columns of one row: the number of
non-missing cells. -/
def rowCount (r : Row) (cols : List String) : ℕ :=
  ((cols.map (fun c => getVal r c)).filter (fun v => !(isNA v))).length

/-- The rational values present (non-missing) in the given columns of one
row; the aggregations run after the bulk coercion, so these cells are
numbers or `NaN`. -/
def rowPresent (r : Row) (cols : List String) : List ℚ :=
  (cols.map (fun c => cellQ (getVal r c))).reduceOption

/-- `.mean(axis=1)` over the given columns: the mean of the present
values, `NaN` when none are present (skipna semantics). -/
def rowMean (r : Row) (cols : List String) : Val :=
  let ps := rowPresent r cols
  if ps.length = 0 then Val.missing
  else Val.num (ps.sum / (ps.length : ℚ))

/-- The sample variance (`ddof = 1`) of a list of values, undefined for
fewer than two values. -/
def sampleVar (ps : List ℚ) : Option ℚ :=
  if ps.length < 2 then none
  else some (((ps.map (fun x => (x - ps.sum / (ps.length : ℚ)) ^ 2)).sum) /
    ((ps.length : ℚ) - 1))

/-- `.std(axis=1)` over the given columns: the square root of the sample
variance of the present values, `NaN` when fewer than two are present. -/
def rowStd (r : Row) (cols : List String) : Val :=
  match sampleVar (rowPresent r cols) with
  | some v => Val.sqrtv v
  | none => Val.missing

/-- The left-associated column sum `df[c1] + df[c2] + ...` of lines
108-109 on one row: strict, `NaN` as soon as any operand is `NaN`. -/
def rowSum (r : Row) (cols : List String) : Val :=
  match cols with
  | [] => Val.missing
  | c :: rest => rest.foldl (fun acc c2 => valAdd acc (getVal r c2)) (getVal r c)

/-- Lines 98-112 on one row: write the six interaction statistics and the
three filler scores, each read from the row as already updated by the
preceding assignments (the source reassigns `Filler score (incorrect)`
in place at line 111). -/
def stage4Aggregate (r0 : Row) : Row :=
  let r1 := setVal r0 "Animate (average interaction rating)" (rowMean r0 animateCols)
  let r2 := setVal r1 "Animate (SD)" (rowStd r1 animateCols)
  let r3 := setVal r2 "Animate (n)" (Val.num ((rowCount r2 animateCols : ℕ) : ℚ))
  let r4 := setVal r3 "Inanimate (average interaction rating)" (rowMean r3 inanimateCols)
  let r5 := setVal r4 "Inanimate (SD)" (rowStd r4 inanimateCols)
  let r6 := setVal r5 "Inanimate (n)" (Val.num ((rowCount r5 inanimateCols : ℕ) : ℚ))
  let r7 := setVal r6 "Filler score (correct)" (rowSum r6 correctCols)
  let r8 := setVal r7 "Filler score (incorrect)" (rowSum r7 incorrectCols)
  let r9 := setVal r8 "Filler score (incorrect)"
    (valSub (getVal r8 "Filler score (incorrect)") 9)
  setVal r9 "Filler score"
    (valAdd (getVal r9 "Filler score (correct)") (getVal r9 "Filler score (incorrect)"))

/-- STAGE 4 (lines 80-114): clamp and coerce the response columns, apply
the `Q11` reverse-coding adjustment when the column exists, then write
the aggregate statistics and filler scores. -/
def STAGE4 (df : Table) : Table :=
  let t1 := df.map stage4Coerce
  let t2 :=
    if hasCol t1 "Q11" then
      t1.map (fun r => setVal r "Q11" (adjQ11 (getVal r "Q11")))
    else t1
  t2.map stage4Aggregate

/-- The dictionary collaborator of stage 5 (`pyspellchecker`), a black
box per the specification: the subset of a token list judged unknown
(in the iteration order of the returned set), and the single best
correction for a token. -/
structure SpellChecker where
  unknown : List String → List String
  correction : String → String

/-- Whitespace tokenization of `str.split()`: split on runs of
whitespace, discarding empty tokens.  `acc` holds the characters of the
current token, reversed. -/
def wsTokensAux : List Char → List Char → List String
  | [], acc => if acc.isEmpty then [] else [String.mk acc.reverse]
  | c :: rest, acc =>
    if c.isWhitespace then
      if acc.isEmpty then wsTokensAux rest []
      else String.mk acc.reverse :: wsTokensAux rest []
    else wsTokensAux rest (c :: acc)

/-- `s.split()` in Python. -/
def tokenize (s : String) : List String := wsTokensAux s.data []

/-- The text of a cell, when it is a text cell (`.str` accessor
semantics: non-strings behave as missing). -/
def getText : Val → Option String
  | Val.str s => some s
  | _ => none

/-- Python's `text.replace(pat, rep)` on character lists: replace every
leftmost non-overlapping occurrence, scanning left to right.  `fuel`
bounds the recursion by the text length (each step consumes at least one
character when `pat` is nonempty; tokens, the only patterns used, are
nonempty). -/
def replaceCharsFuel (pat rep : List Char) : ℕ → List Char → List Char
  | 0, l => l
  | _, [] => []
  | fuel + 1, c :: rest =>
    if !pat.isEmpty && pat.isPrefixOf (c :: rest) then
      rep ++ replaceCharsFuel pat rep fuel ((c :: rest).drop pat.length)
    else c :: replaceCharsFuel pat rep fuel rest

/-- Python's `text.replace(pat, rep)`. -/
def replaceAll (text pat rep : String) : String :=
  String.mk (replaceCharsFuel pat.data rep.data text.data.length text.data)

/-- The inner `correct_words` of lines 134-137: apply every
(misspelled, correction) substring replacement in dictionary order. -/
def correctWords (cs : List (String × String)) (text : String) : String :=
  cs.foldl (fun t p => replaceAll t p.1 p.2) text

/-- The corpus `all_words = df['Q56'].str.split().sum()` of line 123:
tokens of every text cell of `Q56`, concatenated in row order
(`Series.sum` skips missing cells). -/
def stage5AllWords (df : Table) : List String :=
  ((df.filterMap (fun r => getText (getVal r "Q56"))).map tokenize).flatten

/-- The fixed keyword list of lines 142-147. -/
def specifiedWords : List String :=
  ["owl", "bee", "minister", "baby", "soldier", "python", "wolf",
   "engineer", "trout", "turtle", "spider", "duck", "doll", "drum",
   "purse", "violin", "slippers", "stove", "rake", "journal",
   "whistle", "tent", "hat", "kite"]

/-- The `word_counts` tally of lines 150-152 over a token list. -/
def keywordTally (words : List String) : List (String × ℕ) :=
  specifiedWords.map (fun w => (w, words.count w))

/-- The keyword tally stage 5 computes (and then discards): counts over
`all_words`, the corpus taken from `Q56` before the corrections are
applied to the table. -/
def stage5Tally (df : Table) : List (String × ℕ) :=
  keywordTally (stage5AllWords df)

/-- Apply a fallible per-row function to every row; any failure fails the
whole table (a raised exception aborts `Series.apply`). -/
def optMap (f : Row → Option Row) : Table → Option Table
  | [] => some []
  | r :: rest =>
    match f r, optMap f rest with
    | some r2, some rest2 => some (r2 :: rest2)
    | _, _ => none

/-- The table-wide CorrectionMap of lines 126-131: the tokens of the full
corpus judged unknown by the dictionary collaborator, each paired with its
single best correction.  It is built once per table — never per record —
and depends only on the table and the collaborator. -/
def stage5Corrections (spell : SpellChecker) (df : Table) : List (String × String) :=
  (spell.unknown (stage5AllWords df)).map (fun w => (w, spell.correction w))

/-- STAGE 5 (lines 118-154): tokenize the `Q56` corpus, obtain the
table-wide correction map (`stage5Corrections`) from the dictionary
collaborator, and rewrite every `Q56` text by literal substring
replacement with that one map.  With a nonempty correction map, a
non-text `Q56` cell raises (`float.replace` does not exist); with an
empty map `correct_words` is the identity and the table is returned
unchanged.  The keyword tally (`stage5Tally`) is computed from the
pre-correction corpus and never written to the table. -/
def STAGE5 (spell : SpellChecker) (df : Table) : Option Table :=
  let corrections := stage5Corrections spell df
  if corrections.isEmpty then some df
  else
    optMap (fun r =>
      match getText (getVal r "Q56") with
      | some s => some (setVal r "Q56" (Val.str (correctWords corrections s)))
      | none => none) df

/-- The per-table body of `PROCESS` (lines 164-180): stages 1 → 5 in
order, each stage consuming the previous stage's output (the `.copy()`
calls of the runner are identities on immutable snapshot values). -/
def pipeline (spell : SpellChecker) (df : Table) : Option Table :=
  match STAGE1 df with
  | some t1 => STAGE5 spell (STAGE4 (STAGE3 (STAGE2 t1)))
  | none => none

/-! ### Basic lemmas about rows and columns -/

theorem getVal_setVal_self (r : Row) (c : String) (v : Val) :
    getVal (setVal r c v) c = v := by
  induction r with
  | nil => simp [getVal, setVal]
  | cons p rest ih =>
    obtain ⟨n, w⟩ := p
    by_cases h : n = c
    · simp [getVal, setVal, h]
    · simp [getVal, setVal, h, ih]

theorem getVal_setVal_ne (r : Row) {c2 c : String} (v : Val) (h : c2 ≠ c) :
    getVal (setVal r c2 v) c = getVal r c := by
  induction r with
  | nil => simp [getVal, setVal, h]
  | cons p rest ih =>
    obtain ⟨n, w⟩ := p
    by_cases h2 : n = c2
    · subst h2; simp [getVal, setVal, h]
    · simp [getVal, setVal, h2, ih]

theorem getVal_mapVals (g : String → Val → Val) (r : Row) (c : String)
    (hg : g c Val.missing = Val.missing) :
    getVal (mapVals g r) c = g c (getVal r c) := by
  induction r with
  | nil => simp [getVal, mapVals, hg]
  | cons p rest ih =>
    obtain ⟨n, w⟩ := p
    by_cases h : n = c
    · subst h; simp [getVal, mapVals]
    · simp only [mapVals] at ih ⊢
      simp [getVal, h, ih]

theorem getVal_foldl_setVal (cs : List String) (r : Row) (c : String) (w : Val)
    (h : c ∉ cs) :
    getVal (cs.foldl (fun r2 c2 => setVal r2 c2 w) r) c = getVal r c := by
  induction cs generalizing r with
  | nil => rfl
  | cons c2 rest ih =>
    have h1 : c ≠ c2 := fun e => h (by simp [e])
    have h2 : c ∉ rest := fun m => h (by simp [m])
    rw [List.foldl_cons, ih _ h2, getVal_setVal_ne _ _ h1.symm]

theorem getVal_filter_not_rem (rem : List String) (r : Row) (c : String)
    (hc : c ∉ rem) :
    getVal (r.filter (fun p => !(rem.contains p.1))) c = getVal r c := by
  induction r with
  | nil => rfl
  | cons p rest ih =>
    obtain ⟨n, w⟩ := p
    by_cases h : n = c
    · subst h
      rw [List.filter_cons, if_pos (by simp [hc])]
      simp [getVal]
    · by_cases hk : n ∈ rem
      · rw [List.filter_cons, if_neg (by simp [hk]), ih]
        simp [getVal, h]
      · rw [List.filter_cons, if_pos (by simp [hk])]
        simp only [getVal]
        rw [if_neg h, if_neg h]
        exact ih

/-- A clamped cell: `0`, `1`, anything in between, or missing — the
specification-side description of the stage-4 binary-item normalization
output. -/
def inUnit (v : Val) : Bool :=
  match v with
  | Val.missing => true
  | Val.num q => decide (0 ≤ q) && decide (q ≤ 1)
  | _ => false

/-- The plain rational sum of the given columns of a row, missing cells
contributing `0` — used only to state theorems about rows whose cells are
all numeric. -/
def sumQ (r : Row) (cols : List String) : ℚ :=
  (cols.map (fun c => (cellQ (getVal r c)).getD 0)).sum

/-! ### Lemmas about `addSubIDs` and `optMap` -/

theorem length_addSubIDs (k : ℕ) (t : Table) :
    (addSubIDs k t).length = t.length := by
  induction t generalizing k with
  | nil => rfl
  | cons r rest ih => simp [addSubIDs, ih]

theorem getVal_addSubIDs (k : ℕ) (t : Table) (i : ℕ)
    (h : i < (addSubIDs k t).length) :
    getVal ((addSubIDs k t).get ⟨i, h⟩) "SubID" = Val.num ((k + i : ℕ) : ℚ) := by
  induction t generalizing k i with
  | nil => simp [addSubIDs] at h
  | cons r rest ih =>
    cases i with
    | zero => simpa [addSubIDs, List.get] using getVal_setVal_self r "SubID" _
    | succ j =>
      have := ih (k + 1) j (by simpa [addSubIDs, Nat.succ_lt_succ_iff] using h)
      have harith : k + 1 + j = k + (j + 1) := by omega
      simpa [addSubIDs, List.get, harith] using this

theorem optMap_length (f : Row → Option Row) (t t2 : Table)
    (h : optMap f t = some t2) : t2.length = t.length := by
  induction t generalizing t2 with
  | nil =>
    simp only [optMap, Option.some.injEq] at h
    subst h; rfl
  | cons r rest ih =>
    simp only [optMap] at h
    cases hf : f r with
    | none => rw [hf] at h; simp at h
    | some r2 =>
      rw [hf] at h
      cases ho : optMap f rest with
      | none => rw [ho] at h; simp at h
      | some rest2 =>
        rw [ho] at h
        simp only [Option.some.injEq] at h
        subst h
        simp [ih rest2 ho]

/-! ### Lemmas about the stage-4 aggregation row -/

theorem rowCount_congr {r1 r2 : Row} (cols : List String)
    (h : ∀ c ∈ cols, getVal r1 c = getVal r2 c) :
    rowCount r1 cols = rowCount r2 cols := by
  unfold rowCount
  rw [List.map_congr_left h]

theorem rowPresent_congr {r1 r2 : Row} (cols : List String)
    (h : ∀ c ∈ cols, getVal r1 c = getVal r2 c) :
    rowPresent r1 cols = rowPresent r2 cols := by
  unfold rowPresent
  rw [List.map_congr_left (fun c hc => by rw [h c hc])]

theorem rowMean_congr {r1 r2 : Row} (cols : List String)
    (h : ∀ c ∈ cols, getVal r1 c = getVal r2 c) :
    rowMean r1 cols = rowMean r2 cols := by
  unfold rowMean
  rw [rowPresent_congr cols h]

theorem rowStd_congr {r1 r2 : Row} (cols : List String)
    (h : ∀ c ∈ cols, getVal r1 c = getVal r2 c) :
    rowStd r1 cols = rowStd r2 cols := by
  unfold rowStd
  rw [rowPresent_congr cols h]

theorem foldl_valAdd_congr {r1 r2 : Row} (cols : List String)
    (h : ∀ c ∈ cols, getVal r1 c = getVal r2 c) (a : Val) :
    cols.foldl (fun acc c => valAdd acc (getVal r1 c)) a
      = cols.foldl (fun acc c => valAdd acc (getVal r2 c)) a := by
  induction cols generalizing a with
  | nil => rfl
  | cons c rest ih =>
    simp only [List.foldl_cons]
    rw [h c (by simp), ih (fun c2 m => h c2 (by simp [m]))]

theorem rowSum_congr {r1 r2 : Row} (cols : List String)
    (h : ∀ c ∈ cols, getVal r1 c = getVal r2 c) :
    rowSum r1 cols = rowSum r2 cols := by
  cases cols with
  | nil => rfl
  | cons c rest =>
    show rest.foldl (fun acc c2 => valAdd acc (getVal r1 c2)) (getVal r1 c)
        = rest.foldl (fun acc c2 => valAdd acc (getVal r2 c2)) (getVal r2 c)
    rw [h c (by simp)]
    exact foldl_valAdd_congr rest (fun c2 m => h c2 (by simp [m])) _

theorem setVal_cells_eq (r : Row) (x : String) (v : Val) (cols : List String)
    (hx : x ∉ cols) :
    ∀ c ∈ cols, getVal (setVal r x v) c = getVal r c :=
  fun c hc => getVal_setVal_ne r v (fun e => hx (e ▸ hc))

theorem rowCount_setVal (r : Row) (x : String) (v : Val) (cols : List String)
    (hx : x ∉ cols) : rowCount (setVal r x v) cols = rowCount r cols :=
  rowCount_congr cols (setVal_cells_eq r x v cols hx)

theorem rowMean_setVal (r : Row) (x : String) (v : Val) (cols : List String)
    (hx : x ∉ cols) : rowMean (setVal r x v) cols = rowMean r cols :=
  rowMean_congr cols (setVal_cells_eq r x v cols hx)

theorem rowStd_setVal (r : Row) (x : String) (v : Val) (cols : List String)
    (hx : x ∉ cols) : rowStd (setVal r x v) cols = rowStd r cols :=
  rowStd_congr cols (setVal_cells_eq r x v cols hx)

theorem rowSum_setVal (r : Row) (x : String) (v : Val) (cols : List String)
    (hx : x ∉ cols) : rowSum (setVal r x v) cols = rowSum r cols :=
  rowSum_congr cols (setVal_cells_eq r x v cols hx)

/-- The nine result columns written by the stage-4 aggregation step. -/
def aggNames : List String :=
  ["Animate (average interaction rating)", "Animate (SD)", "Animate (n)",
   "Inanimate (average interaction rating)", "Inanimate (SD)", "Inanimate (n)",
   "Filler score (correct)", "Filler score (incorrect)", "Filler score"]

theorem getVal_stage4Aggregate_ne (r : Row) (c : String) (h : c ∉ aggNames) :
    getVal (stage4Aggregate r) c = getVal r c := by
  simp only [aggNames, List.mem_cons, List.not_mem_nil, or_false, not_or] at h
  obtain ⟨h1, h2, h3, h4, h5, h6, h7, h8, h9⟩ := h
  simp only [stage4Aggregate]
  rw [getVal_setVal_ne _ _ (Ne.symm h9), getVal_setVal_ne _ _ (Ne.symm h8),
      getVal_setVal_ne _ _ (Ne.symm h8), getVal_setVal_ne _ _ (Ne.symm h7),
      getVal_setVal_ne _ _ (Ne.symm h6), getVal_setVal_ne _ _ (Ne.symm h5),
      getVal_setVal_ne _ _ (Ne.symm h4), getVal_setVal_ne _ _ (Ne.symm h3),
      getVal_setVal_ne _ _ (Ne.symm h2), getVal_setVal_ne _ _ (Ne.symm h1)]

theorem agg_animate_mean (r : Row) :
    getVal (stage4Aggregate r) "Animate (average interaction rating)"
      = rowMean r animateCols := by
  simp only [stage4Aggregate]
  rw [getVal_setVal_ne _ _ (by decide), getVal_setVal_ne _ _ (by decide),
      getVal_setVal_ne _ _ (by decide), getVal_setVal_ne _ _ (by decide),
      getVal_setVal_ne _ _ (by decide), getVal_setVal_ne _ _ (by decide),
      getVal_setVal_ne _ _ (by decide), getVal_setVal_ne _ _ (by decide),
      getVal_setVal_ne _ _ (by decide), getVal_setVal_self]

theorem agg_animate_sd (r : Row) :
    getVal (stage4Aggregate r) "Animate (SD)" = rowStd r animateCols := by
  simp only [stage4Aggregate]
  rw [getVal_setVal_ne _ _ (by decide), getVal_setVal_ne _ _ (by decide),
      getVal_setVal_ne _ _ (by decide), getVal_setVal_ne _ _ (by decide),
      getVal_setVal_ne _ _ (by decide), getVal_setVal_ne _ _ (by decide),
      getVal_setVal_ne _ _ (by decide), getVal_setVal_ne _ _ (by decide),
      getVal_setVal_self, rowStd_setVal _ _ _ _ (by decide)]

theorem agg_animate_n (r : Row) :
    getVal (stage4Aggregate r) "Animate (n)"
      = Val.num (rowCount r animateCols : ℚ) := by
  simp only [stage4Aggregate]
  rw [getVal_setVal_ne _ _ (by decide), getVal_setVal_ne _ _ (by decide),
      getVal_setVal_ne _ _ (by decide), getVal_setVal_ne _ _ (by decide),
      getVal_setVal_ne _ _ (by decide), getVal_setVal_ne _ _ (by decide),
      getVal_setVal_ne _ _ (by decide), getVal_setVal_self,
      rowCount_setVal _ _ _ _ (by decide), rowCount_setVal _ _ _ _ (by decide)]

theorem agg_inanimate_mean (r : Row) :
    getVal (stage4Aggregate r) "Inanimate (average interaction rating)"
      = rowMean r inanimateCols := by
  simp only [stage4Aggregate]
  rw [getVal_setVal_ne _ _ (by decide), getVal_setVal_ne _ _ (by decide),
      getVal_setVal_ne _ _ (by decide), getVal_setVal_ne _ _ (by decide),
      getVal_setVal_ne _ _ (by decide), getVal_setVal_ne _ _ (by decide),
      getVal_setVal_self, rowMean_setVal _ _ _ _ (by decide),
      rowMean_setVal _ _ _ _ (by decide), rowMean_setVal _ _ _ _ (by decide)]

theorem agg_inanimate_sd (r : Row) :
    getVal (stage4Aggregate r) "Inanimate (SD)" = rowStd r inanimateCols := by
  simp only [stage4Aggregate]
  rw [getVal_setVal_ne _ _ (by decide), getVal_setVal_ne _ _ (by decide),
      getVal_setVal_ne _ _ (by decide), getVal_setVal_ne _ _ (by decide),
      getVal_setVal_ne _ _ (by decide), getVal_setVal_self,
      rowStd_setVal _ _ _ _ (by decide), rowStd_setVal _ _ _ _ (by decide),
      rowStd_setVal _ _ _ _ (by decide), rowStd_setVal _ _ _ _ (by decide)]

theorem agg_inanimate_n (r : Row) :
    getVal (stage4Aggregate r) "Inanimate (n)"
      = Val.num (rowCount r inanimateCols : ℚ) := by
  simp only [stage4Aggregate]
  rw [getVal_setVal_ne _ _ (by decide), getVal_setVal_ne _ _ (by decide),
      getVal_setVal_ne _ _ (by decide), getVal_setVal_ne _ _ (by decide),
      getVal_setVal_self, rowCount_setVal _ _ _ _ (by decide),
      rowCount_setVal _ _ _ _ (by decide), rowCount_setVal _ _ _ _ (by decide),
      rowCount_setVal _ _ _ _ (by decide), rowCount_setVal _ _ _ _ (by decide)]

theorem agg_filler_correct (r : Row) :
    getVal (stage4Aggregate r) "Filler score (correct)"
      = rowSum r correctCols := by
  simp only [stage4Aggregate]
  rw [getVal_setVal_ne _ _ (by decide), getVal_setVal_ne _ _ (by decide),
      getVal_setVal_ne _ _ (by decide), getVal_setVal_self,
      rowSum_setVal _ _ _ _ (by decide), rowSum_setVal _ _ _ _ (by decide),
      rowSum_setVal _ _ _ _ (by decide), rowSum_setVal _ _ _ _ (by decide),
      rowSum_setVal _ _ _ _ (by decide), rowSum_setVal _ _ _ _ (by decide)]

theorem agg_filler_incorrect (r : Row) :
    getVal (stage4Aggregate r) "Filler score (incorrect)"
      = valSub (rowSum r incorrectCols) 9 := by
  simp only [stage4Aggregate]
  rw [getVal_setVal_ne _ _ (by decide), getVal_setVal_self, getVal_setVal_self,
      rowSum_setVal _ _ _ _ (by decide), rowSum_setVal _ _ _ _ (by decide),
      rowSum_setVal _ _ _ _ (by decide), rowSum_setVal _ _ _ _ (by decide),
      rowSum_setVal _ _ _ _ (by decide), rowSum_setVal _ _ _ _ (by decide),
      rowSum_setVal _ _ _ _ (by decide)]

theorem agg_filler_score (r : Row) :
    getVal (stage4Aggregate r) "Filler score"
      = valAdd (rowSum r correctCols) (valSub (rowSum r incorrectCols) 9) := by
  simp only [stage4Aggregate]
  rw [getVal_setVal_self, getVal_setVal_ne _ _ (by decide),
      getVal_setVal_ne _ _ (by decide), getVal_setVal_self,
      getVal_setVal_self, getVal_setVal_self,
      rowSum_setVal _ _ _ _ (by decide), rowSum_setVal _ _ _ _ (by decide),
      rowSum_setVal _ _ _ _ (by decide), rowSum_setVal _ _ _ _ (by decide),
      rowSum_setVal _ _ _ _ (by decide), rowSum_setVal _ _ _ _ (by decide),
      rowSum_setVal _ _ _ _ (by decide), rowSum_setVal _ _ _ _ (by decide),
      rowSum_setVal _ _ _ _ (by decide), rowSum_setVal _ _ _ _ (by decide),
      rowSum_setVal _ _ _ _ (by decide), rowSum_setVal _ _ _ _ (by decide),
      rowSum_setVal _ _ _ _ (by decide)]

/-! ### Structure of the stage-4 output -/

theorem get_map (f : Row → Row) (t : Table) (i : ℕ)
    (h : i < (t.map f).length) (h2 : i < t.length) :
    (t.map f).get ⟨i, h⟩ = f (t.get ⟨i, h2⟩) := by
  simp [List.get_eq_getElem, List.getElem_map]

theorem stage4_length (t : Table) : (STAGE4 t).length = t.length := by
  simp only [STAGE4]
  by_cases hb : hasCol (t.map stage4Coerce) "Q11" <;> simp [hb]

theorem stage4_mem {t : Table} {r2 : Row} (h : r2 ∈ STAGE4 t) :
    ∃ r0, r0 ∈ t ∧
      (r2 = stage4Aggregate (setVal (stage4Coerce r0) "Q11"
          (adjQ11 (getVal (stage4Coerce r0) "Q11")))
        ∨ r2 = stage4Aggregate (stage4Coerce r0)) := by
  simp only [STAGE4] at h
  by_cases hb : hasCol (t.map stage4Coerce) "Q11"
  · rw [if_pos hb] at h
    simp only [List.map_map, List.mem_map, Function.comp] at h
    obtain ⟨r0, hr0, he⟩ := h
    exact ⟨r0, hr0, Or.inl he.symm⟩
  · rw [if_neg hb] at h
    simp only [List.map_map, List.mem_map, Function.comp] at h
    obtain ⟨r0, hr0, he⟩ := h
    exact ⟨r0, hr0, Or.inr he.symm⟩

theorem stage4_mem_row {t : Table} {r2 : Row} (h : r2 ∈ STAGE4 t) :
    ∃ rp, r2 = stage4Aggregate rp := by
  rcases stage4_mem h with ⟨r0, -, h1 | h2⟩
  · exact ⟨_, h1⟩
  · exact ⟨_, h2⟩

theorem clamp01_missing : clamp01 Val.missing = Val.missing := rfl

theorem getVal_stage4Coerce (r : Row) (c : String) (hq : c ≠ "Q56") :
    getVal (stage4Coerce r) c
      = toNumeric (if clampCols.contains c then clamp01 (getVal r c)
          else getVal r c) := by
  unfold stage4Coerce
  rw [getVal_mapVals _ _ _ (by cases h : (c == "Q56") <;> simp [h, toNumeric]),
      getVal_mapVals _ _ _ (by cases h : clampCols.contains c <;> simp [h, clamp01_missing])]
  simp [hq]

theorem getVal_stage4_mid (r0 r2 : Row) (c : String)
    (hq56 : c ≠ "Q56") (hq11 : c ≠ "Q11")
    (h : r2 = setVal (stage4Coerce r0) "Q11" (adjQ11 (getVal (stage4Coerce r0) "Q11"))
        ∨ r2 = stage4Coerce r0) :
    getVal r2 c
      = toNumeric (if clampCols.contains c then clamp01 (getVal r0 c)
          else getVal r0 c) := by
  rcases h with h | h <;> subst h
  · rw [getVal_setVal_ne _ _ (fun e => hq11 e.symm)]
    exact getVal_stage4Coerce r0 c hq56
  · exact getVal_stage4Coerce r0 c hq56

/-! ### Base cells through coercion and clamping -/

theorem baseRow_getVal (r : Row) (hb : baseRow r = true) (c : String) :
    baseVal (getVal r c) = true := by
  induction r with
  | nil => rfl
  | cons p rest ih =>
    obtain ⟨n, w⟩ := p
    simp only [baseRow, List.all_cons, Bool.and_eq_true] at hb
    by_cases h : n = c
    · simpa [getVal, h] using hb.1
    · simpa [getVal, h] using ih hb.2

theorem baseTable_row {t : Table} (ht : BaseTable t = true) {r : Row} (hr : r ∈ t) :
    baseRow r = true := by
  simp only [BaseTable, List.all_eq_true] at ht
  exact ht r hr

theorem toNumeric_base {v : Val} (hb : baseVal v = true) :
    toNumeric v = Val.missing ∨ ∃ q : ℚ, toNumeric v = Val.num q := by
  cases v with
  | num q => exact Or.inr ⟨q, rfl⟩
  | str s =>
    cases hp : parseNumQ s with
    | none => exact Or.inl (by simp [toNumeric, hp])
    | some q => exact Or.inr ⟨q, by simp [toNumeric, hp]⟩
  | sqrtv q => simp [baseVal] at hb
  | missing => exact Or.inl rfl

theorem clamp01_num_cases (q : ℚ) :
    clamp01 (Val.num q)
      = (if 1 < q then Val.num 1 else if q < 0 then Val.num 0 else Val.num q) := by
  simp only [clamp01, toNumeric, valGT, valLT]
  by_cases h1 : 1 < q
  · simp [h1, show ¬((1:ℚ) < 0) by norm_num]
  · by_cases h2 : q < 0 <;> simp [h1, h2]

theorem clamp01_inUnit {v : Val} (hb : baseVal v = true) :
    inUnit (toNumeric (clamp01 v)) = true := by
  have hnum : ∀ q : ℚ, inUnit (toNumeric (clamp01 (Val.num q))) = true := by
    intro q
    rw [clamp01_num_cases]
    by_cases h1 : 1 < q
    · simp [h1, toNumeric, inUnit]
    · by_cases h2 : q < 0
      · simp [h1, h2, toNumeric, inUnit]
      · simp [h1, h2, toNumeric, inUnit, le_of_not_lt, not_lt.mp]
  cases v with
  | num q => exact hnum q
  | str s =>
    have : clamp01 (Val.str s) = clamp01 (toNumeric (Val.str s)) := by
      cases hp : parseNumQ s <;> simp [clamp01, toNumeric, hp]
    rw [this]
    cases hp : parseNumQ s with
    | none => simp [toNumeric, hp, clamp01_missing, inUnit]
    | some q => simpa [toNumeric, hp] using hnum q
  | sqrtv q => simp [baseVal] at hb
  | missing => rfl

theorem optMap_get (f : Row → Option Row) (t t2 : Table)
    (h : optMap f t = some t2) (i : ℕ) (hi : i < t.length) (hi2 : i < t2.length) :
    f (t.get ⟨i, hi⟩) = some (t2.get ⟨i, hi2⟩) := by
  induction t generalizing t2 i with
  | nil => simp at hi
  | cons r rest ih =>
    simp only [optMap] at h
    cases hf : f r with
    | none => rw [hf] at h; simp at h
    | some r2 =>
      rw [hf] at h
      cases ho : optMap f rest with
      | none => rw [ho] at h; simp at h
      | some rest2 =>
        rw [ho] at h
        simp only [Option.some.injEq] at h
        subst h
        cases i with
        | zero => simpa [List.get] using hf
        | succ j =>
          exact ih rest2 ho j (by simpa using hi) (by simpa using hi2)

/-! ### Frame lemmas for stage 5 and the identifier chain -/

theorem stage5_frame (spell : SpellChecker) (t t2 : Table)
    (h : STAGE5 spell t = some t2) :
    t2.length = t.length ∧
      ∀ (i : ℕ) (hi : i < t.length) (hi2 : i < t2.length) (c : String),
        c ≠ "Q56" → getVal (t2.get ⟨i, hi2⟩) c = getVal (t.get ⟨i, hi⟩) c := by
  simp only [STAGE5] at h
  split at h
  · cases h
    exact ⟨rfl, fun i hi hi2 c hc => rfl⟩
  · refine ⟨optMap_length _ _ _ h, ?_⟩
    intro i hi hi2 c hc
    have hf := optMap_get _ _ _ h i hi hi2
    cases hg : getText (getVal (t.get ⟨i, hi⟩) "Q56") with
    | none => rw [hg] at hf; simp at hf
    | some s =>
      rw [hg] at hf
      simp only [Option.some.injEq] at hf
      rw [← hf, getVal_setVal_ne _ _ (fun e => hc e.symm)]

theorem renameKey_subid (n : String) : renameKey n = "SubID" ↔ n = "SubID" := by
  unfold renameKey
  split_ifs with h1 h2 h3 <;> simp_all

theorem getVal_renameRow_subid (r : Row) :
    getVal (renameRow r) "SubID" = getVal r "SubID" := by
  induction r with
  | nil => rfl
  | cons p rest ih =>
    obtain ⟨n, w⟩ := p
    by_cases h : n = "SubID"
    · subst h
      simp [renameRow, renameKey, getVal]
    · have h2 : renameKey n ≠ "SubID" := fun e => h ((renameKey_subid n).mp e)
      simp only [renameRow, List.map_cons] at ih ⊢
      simp [getVal, h, h2, ih]

theorem recodeVal_subid (v : Val) : recodeVal "SubID" v = v := by
  cases v <;> simp [recodeVal, recodeLookup]

theorem stage2_row_subid (r : Row) :
    getVal (recodeRow (renameRow r)) "SubID" = getVal r "SubID" := by
  rw [recodeRow, getVal_mapVals _ _ _ (recodeVal_subid _), recodeVal_subid,
    getVal_renameRow_subid]

theorem stage3_row_subid (r : Row) :
    getVal ((newCols.foldl (fun r2 c => setVal r2 c Val.missing) r).filter
        (fun p => !(remCols.contains p.1))) "SubID"
      = getVal r "SubID" := by
  rw [getVal_filter_not_rem _ _ _ (by decide), getVal_foldl_setVal _ _ _ _ (by decide)]

theorem stage4_row_subid (r0 r2 : Row) {q : ℚ}
    (h : r2 = setVal (stage4Coerce r0) "Q11" (adjQ11 (getVal (stage4Coerce r0) "Q11"))
        ∨ r2 = stage4Coerce r0)
    (hq : getVal r0 "SubID" = Val.num q) :
    getVal (stage4Aggregate r2) "SubID" = Val.num q := by
  rw [getVal_stage4Aggregate_ne _ _ (by decide),
    getVal_stage4_mid r0 r2 "SubID" (by decide) (by decide) h]
  rw [show clampCols.contains "SubID" = false from by decide]
  simp [hq, toNumeric]

/-! ### Structure of a successful stage-1 run -/

theorem stage1_structure {t t2 : Table} (h : STAGE1 t = some t2) :
    2 ≤ t.length ∧ t2.length = (t.eraseIdx 1).countP passes := by
  simp only [STAGE1] at h
  split at h
  · split at h
    · refine ⟨by assumption, ?_⟩
      injection h with he
      subst he
      rw [length_addSubIDs, ← List.countP_eq_length_filter, List.countP_filter,
        List.countP_map, List.countP_map]
      apply List.countP_congr
      intro r _
      simp only [Function.comp]
      rw [getVal_setVal_self, getVal_setVal_ne _ _ (by decide),
        getVal_setVal_ne _ _ (by decide), getVal_setVal_self]
      simp [passes, Bool.and_comm]
    · simp at h
  · simp at h

theorem stage1_subid {t t2 : Table} (h : STAGE1 t = some t2) (i : ℕ)
    (hi : i < t2.length) :
    getVal (t2.get ⟨i, hi⟩) "SubID" = Val.num ((1 + i : ℕ) : ℚ) := by
  simp only [STAGE1] at h
  split at h
  · split at h
    · injection h with he
      subst he
      exact getVal_addSubIDs 1 _ i hi
    · simp at h
  · simp at h

theorem stage1_short {t : Table} (h : t.length < 2) : STAGE1 t = none := by
  simp only [STAGE1]
  rw [if_neg (by omega)]

/-! ### Idempotence of stage 2 -/

theorem renameKey_idem (n : String) : renameKey (renameKey n) = renameKey n := by
  by_cases h1 : n = "Q4"
  · subst h1; rfl
  · by_cases h2 : n = "Q5"
    · subst h2; rfl
    · by_cases h3 : n = "Q6"
      · subst h3; rfl
      · have hn : renameKey n = n := by
          unfold renameKey
          rw [if_neg h1, if_neg h2, if_neg h3]
        rw [hn, hn]

theorem recodeLookup_code {col s code : String} (h : recodeLookup col s = some code) :
    recodeLookup col code = none := by
  unfold recodeLookup at h ⊢
  split_ifs at h ⊢ <;> simp_all

theorem recodeVal_idem (c : String) (v : Val) :
    recodeVal c (recodeVal c v) = recodeVal c v := by
  cases v with
  | str s =>
    cases hl : recodeLookup c s with
    | none => simp [recodeVal, hl]
    | some code => simp [recodeVal, hl, recodeLookup_code hl]
  | num q => rfl
  | sqrtv q => rfl
  | missing => rfl

theorem stage2_row_eq (r : Row) :
    recodeRow (renameRow r)
      = r.map (fun p => (renameKey p.1, recodeVal (renameKey p.1) p.2)) := by
  simp [renameRow, recodeRow, mapVals, List.map_map, Function.comp]

theorem stage2_row_idem (r : Row) :
    recodeRow (renameRow (recodeRow (renameRow r))) = recodeRow (renameRow r) := by
  rw [stage2_row_eq, stage2_row_eq, List.map_map]
  apply List.map_congr_left
  intro p _
  simp only [Function.comp]
  rw [renameKey_idem, recodeVal_idem]

/-! ### Strict sums for the filler scores -/

theorem valAdd_missing_right (a : Val) : valAdd a Val.missing = Val.missing := by
  cases a <;> rfl

theorem foldl_valAdd_from_missing (r : Row) (cols : List String) :
    cols.foldl (fun acc c => valAdd acc (getVal r c)) Val.missing = Val.missing := by
  induction cols with
  | nil => rfl
  | cons c cs ih => rw [List.foldl_cons, show valAdd Val.missing (getVal r c) = Val.missing from rfl, ih]

theorem foldl_valAdd_missing_mem {r : Row} {cols : List String} {c0 : String}
    (hm : c0 ∈ cols) (h0 : getVal r c0 = Val.missing) (a : Val) :
    cols.foldl (fun acc c => valAdd acc (getVal r c)) a = Val.missing := by
  induction cols generalizing a with
  | nil => simp at hm
  | cons c cs ih =>
    rw [List.foldl_cons]
    rcases List.mem_cons.mp hm with rfl | hm2
    · rw [h0, valAdd_missing_right]
      exact foldl_valAdd_from_missing r cs
    · exact ih hm2 _

theorem rowSum_missing {r : Row} {cols : List String} {c0 : String}
    (hm : c0 ∈ cols) (h0 : getVal r c0 = Val.missing) :
    rowSum r cols = Val.missing := by
  cases cols with
  | nil => simp at hm
  | cons c cs =>
    show cs.foldl (fun acc c2 => valAdd acc (getVal r c2)) (getVal r c) = Val.missing
    rcases List.mem_cons.mp hm with rfl | hm2
    · rw [h0]
      exact foldl_valAdd_from_missing r cs
    · exact foldl_valAdd_missing_mem hm2 h0 _

theorem foldl_valAdd_num {r : Row} {cols : List String}
    (h : ∀ c ∈ cols, isNum (getVal r c) = true) (a : ℚ) :
    cols.foldl (fun acc c => valAdd acc (getVal r c)) (Val.num a)
      = Val.num (a + sumQ r cols) := by
  induction cols generalizing a with
  | nil => simp [sumQ]
  | cons c cs ih =>
    have hc := h c (by simp)
    cases hv : getVal r c with
    | num q =>
      rw [List.foldl_cons, hv]
      show cs.foldl (fun acc c2 => valAdd acc (getVal r c2)) (Val.num (a + q)) = _
      rw [ih (fun c2 m => h c2 (by simp [m]))]
      simp only [sumQ, List.map_cons, List.sum_cons, hv, cellQ, Option.getD_some]
      ring_nf
    | str s => rw [hv] at hc; simp [isNum] at hc
    | sqrtv q => rw [hv] at hc; simp [isNum] at hc
    | missing => rw [hv] at hc; simp [isNum] at hc

theorem rowSum_num {r : Row} {cols : List String} (hne : cols ≠ [])
    (h : ∀ c ∈ cols, isNum (getVal r c) = true) :
    rowSum r cols = Val.num (sumQ r cols) := by
  cases cols with
  | nil => exact absurd rfl hne
  | cons c cs =>
    have hc := h c (by simp)
    cases hv : getVal r c with
    | num q =>
      show cs.foldl (fun acc c2 => valAdd acc (getVal r c2)) (getVal r c) = _
      rw [hv, foldl_valAdd_num (fun c2 m => h c2 (by simp [m])) q]
      simp only [sumQ, List.map_cons, List.sum_cons, hv, cellQ, Option.getD_some]
    | str s => rw [hv] at hc; simp [isNum] at hc
    | sqrtv q => rw [hv] at hc; simp [isNum] at hc
    | missing => rw [hv] at hc; simp [isNum] at hc

/-! ### Present values, counts, means and standard deviations -/

theorem rowPresent_length_le (r : Row) (cols : List String) :
    (rowPresent r cols).length ≤ rowCount r cols := by
  unfold rowPresent rowCount
  induction cols with
  | nil => simp
  | cons c cs ih =>
    simp only [List.map_cons, List.filter_cons]
    cases hv : getVal r c with
    | num q =>
      simp only [cellQ, List.reduceOption_cons_of_some, List.length_cons, isNA]
      simpa using Nat.succ_le_succ ih
    | str s =>
      simp only [cellQ, List.reduceOption_cons_of_none, isNA]
      simp only [Bool.not_false, if_pos, List.length_cons]
      exact Nat.le_trans ih (Nat.le_succ _)
    | sqrtv q =>
      simp only [cellQ, List.reduceOption_cons_of_none, isNA]
      cases hna : decide (q < 0) with
      | true => simpa [hna] using ih
      | false =>
        simp only [hna, Bool.not_false, if_pos, List.length_cons]
        exact Nat.le_trans ih (Nat.le_succ _)
    | missing =>
      simpa [cellQ, List.reduceOption_cons_of_none, isNA] using ih

theorem rowMean_of_empty {r : Row} {cols : List String}
    (h : (rowPresent r cols).length = 0) : rowMean r cols = Val.missing := by
  simp [rowMean, h]

theorem rowStd_of_small {r : Row} {cols : List String}
    (h : (rowPresent r cols).length < 2) : rowStd r cols = Val.missing := by
  simp [rowStd, sampleVar, h]

/-! ### Remaining small helpers -/

theorem valAdd_missing_left (b : Val) : valAdd Val.missing b = Val.missing := by
  cases b <;> rfl

theorem sumQ_congr {r1 r2 : Row} (cols : List String)
    (h : ∀ c ∈ cols, getVal r1 c = getVal r2 c) : sumQ r1 cols = sumQ r2 cols := by
  unfold sumQ
  rw [List.map_congr_left (fun c hc => by rw [h c hc])]

theorem clamp_col_facts :
    ∀ c ∈ clampCols, c ∉ aggNames ∧ c ≠ "Q11" ∧ c ≠ "Q56"
      ∧ clampCols.contains c = true := by decide

theorem correct_col_facts : ∀ c ∈ correctCols, c ∉ aggNames := by decide

theorem incorrect_col_facts : ∀ c ∈ incorrectCols, c ∉ aggNames := by decide

theorem animate_col_facts : ∀ c ∈ animateCols, c ∉ aggNames := by decide

theorem inanimate_col_facts : ∀ c ∈ inanimateCols, c ∉ aggNames := by decide

theorem stage4_get_subid (u : Table) (i : ℕ) (hi4 : i < (STAGE4 u).length)
    (hiu : i < u.length) {q : ℚ}
    (hq : getVal (u.get ⟨i, hiu⟩) "SubID" = Val.num q) :
    getVal ((STAGE4 u).get ⟨i, hi4⟩) "SubID" = Val.num q := by
  by_cases hb : hasCol (u.map stage4Coerce) "Q11"
  · have he : STAGE4 u = u.map (fun r => stage4Aggregate (setVal (stage4Coerce r) "Q11"
        (adjQ11 (getVal (stage4Coerce r) "Q11")))) := by
      simp [STAGE4, hb, List.map_map, Function.comp]
    rw [List.get_eq_getElem]
    simp only [he, List.getElem_map]
    rw [← List.get_eq_getElem u ⟨i, hiu⟩]
    exact stage4_row_subid _ _ (Or.inl rfl) hq
  · have he : STAGE4 u = u.map (fun r => stage4Aggregate (stage4Coerce r)) := by
      simp [STAGE4, hb, List.map_map, Function.comp]
    rw [List.get_eq_getElem]
    simp only [he, List.getElem_map]
    rw [← List.get_eq_getElem u ⟨i, hiu⟩]
    exact stage4_row_subid _ _ (Or.inr rfl) hq

/-! ### Concrete fixtures

Batteries marks the rational operations `@[irreducible]`, which blocks
elaboration-time evaluation of concrete tables; the kernel reduces them
fine, so they are restored to the default reducibility for the
closed-instance proofs below. -/

attribute [local semireducible] Rat.add Rat.sub Rat.mul Rat.inv

/-- A dictionary collaborator that knows every word (no corrections). -/
def idChecker : SpellChecker where
  unknown := fun _ => []
  correction := fun w => w

/-- A dictionary collaborator that flags `owll` and corrects it to the
keyword `owl`. -/
def owlChecker : SpellChecker where
  unknown := fun ws => if ws.contains "owll" then ["owll"] else []
  correction := fun w => if w == "owll" then "owl" else w

/-- The §8 example: raw records with `Progress = [100, 50, 100]` and
`Q3 = [25, 30, 17]`, plus the structural header row at index 1. -/
def exT1 : Table :=
  [[("Progress", Val.num 100), ("Q3", Val.num 25)],
   [("Progress", Val.str "Progress"), ("Q3", Val.str "Age")],
   [("Progress", Val.num 50), ("Q3", Val.num 30)],
   [("Progress", Val.num 100), ("Q3", Val.num 17)]]

/-- A copy of the §8 example for the pipeline-wide identifier run. -/
def exT2 : Table :=
  [[("Progress", Val.num 100), ("Q3", Val.num 25)],
   [("Progress", Val.str "Progress"), ("Q3", Val.str "Age")],
   [("Progress", Val.num 50), ("Q3", Val.num 30)],
   [("Progress", Val.num 100), ("Q3", Val.num 17)]]

/-- One respondent whose `Q36` answer is the in-range value `0.5`. -/
def exT3c : Table := [[("Q36", Val.num (1 / 2))]]

/-- One respondent whose `Q36` answer is the out-of-range value `5`. -/
def exT3w : Table := [[("Q36", Val.num 5)]]

/-- One respondent with every filler item answered `1`. -/
def exT4 : Table :=
  [[("Q36", Val.num 1), ("Q37", Val.num 1), ("Q38", Val.num 1), ("Q39", Val.num 1),
    ("Q40", Val.num 1), ("Q41", Val.num 1), ("Q42", Val.num 1), ("Q43", Val.num 1),
    ("Q44", Val.num 1), ("Q45", Val.num 1), ("Q46", Val.num 1), ("Q47", Val.num 1),
    ("Q48", Val.num 1), ("Q49", Val.num 1), ("Q50", Val.num 1), ("Q51", Val.num 1),
    ("Q52", Val.num 1), ("Q53", Val.num 1), ("Q54", Val.num 1), ("Q55", Val.num 1)]]

/-- One respondent who answered only the animate item `Q10`. -/
def exT5 : Table := [[("Q10", Val.num 5)]]

/-- One respondent whose free text is the misspelled keyword `owll`. -/
def exT6 : Table := [[("SubID", Val.num 1), ("Q56", Val.str "owll")]]

/-- Two respondents who both misspell `owll`, amid different surrounding
text. -/
def exT7 : Table :=
  [[("Q56", Val.str "an owll flies")], [("Q56", Val.str "the owll sleeps")]]

/-- A two-row table (both rows pass the exclusion thresholds). -/
def exT9 : Table :=
  [[("Progress", Val.num 100), ("Q3", Val.num 20)],
   [("Progress", Val.num 100), ("Q3", Val.num 20)]]

/-- A one-row table. -/
def exT10a : Table := [[("Progress", Val.num 100)]]

/-- First row of the C10 fixture (passes). -/
def exR0 : Row := [("Progress", Val.num 100), ("Q3", Val.num 25)]

/-- Second row of the C10 fixture (the structurally-dropped row; passes). -/
def exR1 : Row := [("Progress", Val.num 100), ("Q3", Val.num 25)]

/-- Third row of the C10 fixture (fails). -/
def exR2 : Row := [("Progress", Val.num 0), ("Q3", Val.num 10)]

/-- The C10 fixture: the dropped row is a genuine passing respondent. -/
def exT10 : Table := [exR0, exR1, exR2]

/-! ### Claim theorems -/

/-- C1: for every input table on which the Exclusion Filter succeeds, the
number of output records equals the number of input records whose two
gatekeeping columns (`Progress` and `Q3`), after numeric coercion with
failures treated as missing, strictly exceed their thresholds (99 and 18),
minus the structurally-dropped row at index 1 when that row passes;
missing values never satisfy `>`. -/
theorem exclusion_filter_count (t t2 : Table) (h : STAGE1 t = some t2) :
    t2.length = t.countP passes - (if passes (t.getD 1 []) then 1 else 0) := by
  obtain ⟨hlen, hcount⟩ := stage1_structure h
  cases t with
  | nil => simp at hlen
  | cons a t' =>
    cases t' with
    | nil => simp at hlen
    | cons b rest =>
      have he : (a :: b :: rest).eraseIdx 1 = a :: rest := rfl
      rw [he] at hcount
      rw [hcount]
      have hg : (a :: b :: rest).getD 1 [] = b := rfl
      rw [hg, List.countP_cons, List.countP_cons, List.countP_cons]
      cases hpa : passes a <;> cases hpb : passes b <;> simp [hpa, hpb]

/-- C1 witness: the §8 example run (with its header row) yields exactly
one surviving record, matching the formula. -/
theorem exclusion_filter_count_witness :
    ((STAGE1 exT1).getD []).length
      = exT1.countP passes - (if passes (exT1.getD 1 []) then 1 else 0) :=
  exclusion_filter_count exT1 ((STAGE1 exT1).getD []) (by decide)

/-- C2: the `SubID` column written by the Exclusion Filter is the
sequence 1, 2, ..., n over the surviving records in order, and the table
the whole pipeline outputs still carries exactly these values in the same
positions (no later stage reassigns the identifier), with the same number
of rows. -/
theorem subid_sequence (spell : SpellChecker) (t t1 tout : Table)
    (h1 : STAGE1 t = some t1) (h : pipeline spell t = some tout)
    (i : ℕ) (hi1 : i < t1.length) (hi : i < tout.length) :
    tout.length = t1.length ∧
    getVal (t1.get ⟨i, hi1⟩) "SubID" = Val.num ((1 + i : ℕ) : ℚ) ∧
    getVal (tout.get ⟨i, hi⟩) "SubID" = Val.num ((1 + i : ℕ) : ℚ) := by
  have hp : STAGE5 spell (STAGE4 (STAGE3 (STAGE2 t1))) = some tout := by
    unfold pipeline at h
    rw [h1] at h
    exact h
  have len2 : (STAGE2 t1).length = t1.length := by simp [STAGE2]
  have len3 : (STAGE3 (STAGE2 t1)).length = (STAGE2 t1).length := by simp [STAGE3]
  have len4 : (STAGE4 (STAGE3 (STAGE2 t1))).length = (STAGE3 (STAGE2 t1)).length :=
    stage4_length _
  obtain ⟨len5, frame5⟩ := stage5_frame spell _ tout hp
  have hlen : tout.length = t1.length := by omega
  have hi2 : i < (STAGE2 t1).length := by omega
  have hi3 : i < (STAGE3 (STAGE2 t1)).length := by omega
  have hi4 : i < (STAGE4 (STAGE3 (STAGE2 t1))).length := by omega
  have g1 : getVal (t1.get ⟨i, hi1⟩) "SubID" = Val.num ((1 + i : ℕ) : ℚ) :=
    stage1_subid h1 i hi1
  have g2 : (STAGE2 t1).get ⟨i, hi2⟩ = recodeRow (renameRow (t1.get ⟨i, hi1⟩)) :=
    get_map _ t1 i hi2 hi1
  have v2 : getVal ((STAGE2 t1).get ⟨i, hi2⟩) "SubID" = Val.num ((1 + i : ℕ) : ℚ) := by
    rw [g2, stage2_row_subid]
    exact g1
  have g3 : (STAGE3 (STAGE2 t1)).get ⟨i, hi3⟩
      = ((newCols.foldl (fun r2 c => setVal r2 c Val.missing)
          ((STAGE2 t1).get ⟨i, hi2⟩)).filter (fun p => !(remCols.contains p.1))) :=
    get_map _ (STAGE2 t1) i hi3 hi2
  have v3 : getVal ((STAGE3 (STAGE2 t1)).get ⟨i, hi3⟩) "SubID"
      = Val.num ((1 + i : ℕ) : ℚ) := by
    rw [g3, stage3_row_subid]
    exact v2
  have v4 : getVal ((STAGE4 (STAGE3 (STAGE2 t1))).get ⟨i, hi4⟩) "SubID"
      = Val.num ((1 + i : ℕ) : ℚ) :=
    stage4_get_subid _ i hi4 hi3 v3
  exact ⟨hlen, g1, by rw [frame5 i hi4 hi "SubID" (by decide)]; exact v4⟩

/-- C2 witness: the pipeline run on the §8 example leaves the single
surviving record carrying `SubID = 1` in the final output. -/
theorem subid_sequence_witness :
    ((pipeline idChecker exT2).getD []).length = ((STAGE1 exT2).getD []).length ∧
    getVal (((STAGE1 exT2).getD []).get ⟨0, by decide⟩) "SubID"
      = Val.num ((1 + 0 : ℕ) : ℚ) ∧
    getVal (((pipeline idChecker exT2).getD []).get ⟨0, by decide⟩) "SubID"
      = Val.num ((1 + 0 : ℕ) : ℚ) :=
  subid_sequence idChecker exT2 ((STAGE1 exT2).getD [])
    ((pipeline idChecker exT2).getD []) (by decide) (by decide) 0 (by decide) (by decide)

/-- C3 counterexample: the claim says every normalized filler-item cell is
exactly `0`, exactly `1`, or missing; but the raw value `0.5` passes
through the clamp unchanged, so the `Q36` cell of the Score Engine's
output is `1/2` — none of the three allowed values. -/
theorem binary_clamp_counterexample :
    (STAGE4 exT3c).length = 1 ∧
    getVal ((STAGE4 exT3c).headD []) "Q36" = Val.num (1 / 2) ∧
    Val.num (1 / 2) ≠ Val.num 0 ∧ Val.num (1 / 2) ≠ Val.num 1 ∧
    Val.num (1 / 2) ≠ Val.missing ∧ "Q36" ∈ clampCols := by decide

/-- C3 (amended): after the Score Engine's binary-item normalization,
every cell of the filler-item columns `Q36 .. Q55` lies in the closed
interval `[0, 1]` or is missing — values above 1 become 1, values below 0
become 0, in-range values stay, non-numeric text becomes missing — for
every base input table. -/
theorem binary_clamp_range (t : Table) (ht : BaseTable t = true) (r2 : Row)
    (hr : r2 ∈ STAGE4 t) (c : String) (hc : c ∈ clampCols) :
    inUnit (getVal r2 c) = true := by
  obtain ⟨r0, hr0, hcase⟩ := stage4_mem hr
  obtain ⟨hagg, hq11, hq56, hcont⟩ := clamp_col_facts c hc
  have hbase : baseVal (getVal r0 c) = true :=
    baseRow_getVal r0 (baseTable_row ht hr0) c
  rcases hcase with h | h <;> subst h
  · rw [getVal_stage4Aggregate_ne _ _ hagg,
      getVal_stage4_mid r0 _ c hq56 hq11 (Or.inl rfl), if_pos hcont]
    exact clamp01_inUnit hbase
  · rw [getVal_stage4Aggregate_ne _ _ hagg,
      getVal_stage4_mid r0 _ c hq56 hq11 (Or.inr rfl), if_pos hcont]
    exact clamp01_inUnit hbase

/-- C3 witness: the out-of-range answer `5` in `Q36` lands in `[0, 1]`
(it is clamped to `1`). -/
theorem binary_clamp_range_witness :
    inUnit (getVal ((STAGE4 exT3w).headD []) "Q36") = true :=
  binary_clamp_range exT3w (by decide) ((STAGE4 exT3w).headD []) (by decide)
    "Q36" (by decide)

/-- C4: in the Score Engine's output row, when every filler item is
numeric the composite `Filler score` equals `Filler score (correct)` plus
(the raw incorrect-group sum minus 9); and when any item of a filler
group is missing, that group's stored sum — and hence the composite — is
missing (strict summation, no partial-sum substitution). -/
theorem filler_score_identity (t : Table) (r2 : Row) (hr : r2 ∈ STAGE4 t) :
    ((∀ c ∈ correctCols, isNum (getVal r2 c) = true) →
     (∀ c ∈ incorrectCols, isNum (getVal r2 c) = true) →
       getVal r2 "Filler score (correct)" = Val.num (sumQ r2 correctCols) ∧
       getVal r2 "Filler score (incorrect)" = Val.num (sumQ r2 incorrectCols - 9) ∧
       getVal r2 "Filler score"
         = Val.num (sumQ r2 correctCols + (sumQ r2 incorrectCols - 9))) ∧
    ((∃ c ∈ correctCols, getVal r2 c = Val.missing) →
       getVal r2 "Filler score (correct)" = Val.missing ∧
       getVal r2 "Filler score" = Val.missing) ∧
    ((∃ c ∈ incorrectCols, getVal r2 c = Val.missing) →
       getVal r2 "Filler score (incorrect)" = Val.missing ∧
       getVal r2 "Filler score" = Val.missing) := by
  obtain ⟨rp, rfl⟩ := stage4_mem_row hr
  have hcells : ∀ c ∈ correctCols, getVal (stage4Aggregate rp) c = getVal rp c :=
    fun c hc => getVal_stage4Aggregate_ne rp c (correct_col_facts c hc)
  have hcells2 : ∀ c ∈ incorrectCols, getVal (stage4Aggregate rp) c = getVal rp c :=
    fun c hc => getVal_stage4Aggregate_ne rp c (incorrect_col_facts c hc)
  refine ⟨?_, ?_, ?_⟩
  · intro hnc hni
    have hnc2 : ∀ c ∈ correctCols, isNum (getVal rp c) = true :=
      fun c hc => by rw [← hcells c hc]; exact hnc c hc
    have hni2 : ∀ c ∈ incorrectCols, isNum (getVal rp c) = true :=
      fun c hc => by rw [← hcells2 c hc]; exact hni c hc
    have hsc : sumQ (stage4Aggregate rp) correctCols = sumQ rp correctCols :=
      sumQ_congr _ hcells
    have hsi : sumQ (stage4Aggregate rp) incorrectCols = sumQ rp incorrectCols :=
      sumQ_congr _ hcells2
    refine ⟨?_, ?_, ?_⟩
    · rw [agg_filler_correct, rowSum_num (by decide) hnc2, hsc]
    · rw [agg_filler_incorrect, rowSum_num (by decide) hni2, hsi]
      rfl
    · rw [agg_filler_score, rowSum_num (by decide) hnc2,
        rowSum_num (by decide) hni2, hsc, hsi]
      rfl
  · rintro ⟨c0, hc0, hm⟩
    have hm2 : getVal rp c0 = Val.missing := by rw [← hcells c0 hc0]; exact hm
    have hs : rowSum rp correctCols = Val.missing := rowSum_missing hc0 hm2
    refine ⟨?_, ?_⟩
    · rw [agg_filler_correct, hs]
    · rw [agg_filler_score, hs, valAdd_missing_left]
  · rintro ⟨c0, hc0, hm⟩
    have hm2 : getVal rp c0 = Val.missing := by rw [← hcells2 c0 hc0]; exact hm
    have hs : rowSum rp incorrectCols = Val.missing := rowSum_missing hc0 hm2
    refine ⟨?_, ?_⟩
    · rw [agg_filler_incorrect, hs]
      rfl
    · rw [agg_filler_score, hs]
      rw [show valSub Val.missing 9 = Val.missing from rfl, valAdd_missing_right]

/-- C4 witness: with every filler item answered `1`, the identity is
realized concretely (`11 + (9 - 9) = 11`). -/
theorem filler_score_identity_witness :
    getVal ((STAGE4 exT4).headD []) "Filler score (correct)"
      = Val.num (sumQ ((STAGE4 exT4).headD []) correctCols) ∧
    getVal ((STAGE4 exT4).headD []) "Filler score (incorrect)"
      = Val.num (sumQ ((STAGE4 exT4).headD []) incorrectCols - 9) ∧
    getVal ((STAGE4 exT4).headD []) "Filler score"
      = Val.num (sumQ ((STAGE4 exT4).headD []) correctCols
          + (sumQ ((STAGE4 exT4).headD []) incorrectCols - 9)) :=
  (filler_score_identity exT4 ((STAGE4 exT4).headD []) (by decide)).1
    (by decide) (by decide)

/-- C5: in the Score Engine's output row, each interaction group's count
column holds the number of non-missing group cells; if that count is 0
the group's mean and standard deviation are missing, and if it is 1 the
standard deviation is missing — and the total stage function never fails
on such groups. -/
theorem interaction_stats (t : Table) (r2 : Row) (hr : r2 ∈ STAGE4 t) :
    (getVal r2 "Animate (n)" = Val.num (rowCount r2 animateCols : ℚ) ∧
      (rowCount r2 animateCols = 0 →
        getVal r2 "Animate (average interaction rating)" = Val.missing ∧
        getVal r2 "Animate (SD)" = Val.missing) ∧
      (rowCount r2 animateCols = 1 →
        getVal r2 "Animate (SD)" = Val.missing)) ∧
    (getVal r2 "Inanimate (n)" = Val.num (rowCount r2 inanimateCols : ℚ) ∧
      (rowCount r2 inanimateCols = 0 →
        getVal r2 "Inanimate (average interaction rating)" = Val.missing ∧
        getVal r2 "Inanimate (SD)" = Val.missing) ∧
      (rowCount r2 inanimateCols = 1 →
        getVal r2 "Inanimate (SD)" = Val.missing)) := by
  obtain ⟨rp, rfl⟩ := stage4_mem_row hr
  have hcA : rowCount (stage4Aggregate rp) animateCols = rowCount rp animateCols :=
    rowCount_congr _ (fun c hc => getVal_stage4Aggregate_ne rp c (animate_col_facts c hc))
  have hcI : rowCount (stage4Aggregate rp) inanimateCols = rowCount rp inanimateCols :=
    rowCount_congr _ (fun c hc => getVal_stage4Aggregate_ne rp c (inanimate_col_facts c hc))
  refine ⟨⟨?_, ?_, ?_⟩, ?_, ?_, ?_⟩
  · rw [agg_animate_n, hcA]
  · intro h0
    rw [hcA] at h0
    have hps : (rowPresent rp animateCols).length = 0 :=
      Nat.le_zero.mp (h0 ▸ rowPresent_length_le rp animateCols)
    exact ⟨by rw [agg_animate_mean, rowMean_of_empty hps],
      by rw [agg_animate_sd, rowStd_of_small (by omega)]⟩
  · intro h1
    rw [hcA] at h1
    have hps : (rowPresent rp animateCols).length ≤ 1 :=
      h1 ▸ rowPresent_length_le rp animateCols
    rw [agg_animate_sd, rowStd_of_small (by omega)]
  · rw [agg_inanimate_n, hcI]
  · intro h0
    rw [hcI] at h0
    have hps : (rowPresent rp inanimateCols).length = 0 :=
      Nat.le_zero.mp (h0 ▸ rowPresent_length_le rp inanimateCols)
    exact ⟨by rw [agg_inanimate_mean, rowMean_of_empty hps],
      by rw [agg_inanimate_sd, rowStd_of_small (by omega)]⟩
  · intro h1
    rw [hcI] at h1
    have hps : (rowPresent rp inanimateCols).length ≤ 1 :=
      h1 ▸ rowPresent_length_le rp inanimateCols
    rw [agg_inanimate_sd, rowStd_of_small (by omega)]

/-- C5 witness: a respondent who answered only `Q10` gets animate count 1
with missing animate SD, and inanimate count 0 with missing inanimate
mean and SD. -/
theorem interaction_stats_witness :
    getVal ((STAGE4 exT5).headD []) "Animate (n)"
      = Val.num (rowCount ((STAGE4 exT5).headD []) animateCols : ℚ) ∧
    getVal ((STAGE4 exT5).headD []) "Animate (SD)" = Val.missing ∧
    getVal ((STAGE4 exT5).headD []) "Inanimate (average interaction rating)"
      = Val.missing ∧
    getVal ((STAGE4 exT5).headD []) "Inanimate (SD)" = Val.missing := by
  have h := interaction_stats exT5 ((STAGE4 exT5).headD []) (by decide)
  exact ⟨h.1.1, h.1.2.2 (by decide), (h.2.2.1 (by decide)).1, (h.2.2.1 (by decide)).2⟩

/-- C6 counterexample: with a dictionary that corrects the misspelled
`owll` to the keyword `owl`, the corrected corpus contains `owl`, yet the
tally reports `owl ↦ 0`: the counts are taken over `all_words`, the
corpus built before the corrections are applied, so the claim "the tally
counts occurrences over the corrected corpus" is false. -/
theorem keyword_tally_counterexample :
    STAGE5 owlChecker exT6 = some [[("SubID", Val.num 1), ("Q56", Val.str "owl")]] ∧
    (stage5Tally exT6).find? (fun p => p.1 == "owl") = some ("owl", 0) := by decide

/-- C6 (amended): the keyword tally counts, for each keyword of the fixed
closed list, its occurrences over the PRE-correction corpus (the tokens
of the input table's `Q56` texts, before the CorrectionMap substitutions),
and it is computed but not persisted: the Text Normalizer changes no
column other than `Q56`. -/
theorem keyword_tally_side_artifact (spell : SpellChecker) (t t2 : Table)
    (h : STAGE5 spell t = some t2) (i : ℕ) (c : String)
    (hi : i < t.length) (hi2 : i < t2.length) (hc : c ≠ "Q56") :
    stage5Tally t = specifiedWords.map (fun w => (w, (stage5AllWords t).count w)) ∧
    getVal (t2.get ⟨i, hi2⟩) c = getVal (t.get ⟨i, hi⟩) c :=
  ⟨rfl, (stage5_frame spell t t2 h).2 i hi hi2 c hc⟩

/-- C6 witness: on the `owll` fixture the `SubID` column survives stage 5
unchanged while the tally is the pre-correction count list. -/
theorem keyword_tally_side_artifact_witness :
    stage5Tally exT6 = specifiedWords.map (fun w => (w, (stage5AllWords exT6).count w)) ∧
    getVal (((STAGE5 owlChecker exT6).getD []).get ⟨0, by decide⟩) "SubID"
      = getVal (exT6.get ⟨0, by decide⟩) "SubID" :=
  keyword_tally_side_artifact owlChecker exT6 ((STAGE5 owlChecker exT6).getD [])
    (by decide) 0 "SubID" (by decide) (by decide) (by decide)

/-- C7: the CorrectionMap is built once from the table-wide corpus and
applied identically to every record: the corrected text of every record
is `correctWords` of the one table-level list `stage5Corrections spell t`
— the same list for every row index — applied to that record's own text.
In particular any two records containing the same misspelled token, in
whatever surrounding text, have it replaced by the same correction, the
one the table-wide map assigns. -/
theorem correction_determinism (spell : SpellChecker) (t t2 : Table)
    (h : STAGE5 spell t = some t2) (i : ℕ)
    (hi : i < t.length) (hi2 : i < t2.length) (s : String)
    (hs : getVal (t.get ⟨i, hi⟩) "Q56" = Val.str s) :
    getVal (t2.get ⟨i, hi2⟩) "Q56"
      = Val.str (correctWords (stage5Corrections spell t) s) := by
  simp only [STAGE5] at h
  split at h
  · rename_i he
    cases h
    have hnil : stage5Corrections spell t = [] := by
      cases hcs : stage5Corrections spell t with
      | nil => rfl
      | cons a l => rw [hcs] at he; simp [List.isEmpty] at he
    rw [hnil, show correctWords [] s = s from rfl]
    exact hs
  · have hf := optMap_get _ _ _ h i hi hi2
    have hgi : getText (getVal (t.get ⟨i, hi⟩) "Q56") = some s := by
      rw [hs]; rfl
    rw [hgi] at hf
    simp only [Option.some.injEq] at hf
    rw [← hf, getVal_setVal_self]

/-- C7 witness: two records that both misspell `owll` amid different
surrounding text are each corrected by the same table-wide map, so the
shared token receives the same correction in both. -/
theorem correction_determinism_witness :
    getVal (((STAGE5 owlChecker exT7).getD []).get ⟨0, by decide⟩) "Q56"
      = Val.str (correctWords (stage5Corrections owlChecker exT7) "an owll flies") ∧
    getVal (((STAGE5 owlChecker exT7).getD []).get ⟨1, by decide⟩) "Q56"
      = Val.str (correctWords (stage5Corrections owlChecker exT7) "the owll sleeps") :=
  ⟨correction_determinism owlChecker exT7 ((STAGE5 owlChecker exT7).getD [])
      (by decide) 0 (by decide) (by decide) "an owll flies" (by decide),
   correction_determinism owlChecker exT7 ((STAGE5 owlChecker exT7).getD [])
      (by decide) 1 (by decide) (by decide) "the owll sleeps" (by decide)⟩

/-- C8: the Field Recoder is idempotent — applying the rename-and-recode
stage twice yields the same table as applying it once, because the
ordinal codes produced by the recode dictionary are not themselves keys
of the dictionary and unmapped values pass through unchanged. -/
theorem field_recoder_idempotent (t : Table) : STAGE2 (STAGE2 t) = STAGE2 t := by
  simp only [STAGE2, List.map_map]
  exact List.map_congr_left (fun r _ => stage2_row_idem r)

/-- C9 counterexample: STAGE1 is not pure in its argument — after a call
on a two-row table, the caller's table object is not the table that was
passed in (the structural row was dropped and the gatekeeping columns
coerced in place). -/
theorem stage_purity_counterexample : STAGE1arg exT9 ≠ some exT9 := by decide

/-- C9 (amended): the stage transforms mutate the table passed to them
rather than leaving it unchanged; in particular, after every successful
STAGE1 call the caller's table has lost its index-1 row (and had its
gatekeeping columns coerced in place), so it is one row shorter than —
and never equal to — the argument.  The Pipeline Runner preserves the
intermediate snapshots by passing `.copy()` tables into stages 1-4. -/
theorem stage1_mutates_argument (t u : Table) (h : STAGE1arg t = some u) :
    u.length + 1 = t.length ∧ u ≠ t := by
  have hlen2 : 2 ≤ t.length := by
    by_contra hc
    simp only [STAGE1arg] at h
    rw [if_neg hc] at h
    simp at h
  obtain ⟨a, b, rest, rfl⟩ : ∃ a b rest, t = a :: b :: rest := by
    cases t with
    | nil => simp at hlen2
    | cons a t' =>
      cases t' with
      | nil => simp at hlen2
      | cons b rest => exact ⟨a, b, rest, rfl⟩
  simp only [STAGE1arg] at h
  rw [if_pos hlen2] at h
  split at h
  · injection h with he
    subst he
    constructor
    · simp [List.eraseIdx]
    · intro e
      have hle := congrArg List.length e
      simp [List.eraseIdx] at hle
  · simp at h

/-- C9 witness: on a concrete two-row table the post-call argument state
is one row shorter than, and different from, the table passed in. -/
theorem stage1_mutates_argument_witness :
    ((STAGE1arg exT9).getD []).length + 1 = exT9.length ∧
    (STAGE1arg exT9).getD [] ≠ exT9 :=
  stage1_mutates_argument exT9 ((STAGE1arg exT9).getD []) (by decide)

/-- C10: the structural-row drop is unconditional — a table with fewer
than two rows makes the Exclusion Filter raise instead of returning a
table, and when the row at positional index 1 is a genuine passing
respondent it is still removed, so the output has one record fewer than
the number of passing input records. -/
theorem structural_drop_unconditional :
    (∀ t : Table, t.length < 2 → STAGE1 t = none) ∧
    (∀ (a b : Row) (rest : Table) (t2 : Table), passes b = true →
      STAGE1 (a :: b :: rest) = some t2 →
      t2.length = (a :: b :: rest).countP passes - 1) := by
  refine ⟨fun t h => stage1_short h, ?_⟩
  intro a b rest t2 hpb h
  obtain ⟨-, hcount⟩ := stage1_structure h
  have he : (a :: b :: rest).eraseIdx 1 = a :: rest := rfl
  rw [he] at hcount
  rw [hcount, List.countP_cons, List.countP_cons, List.countP_cons]
  cases hpa : passes a <;> simp [hpa, hpb]

/-- C10 witness: a one-row table raises, and on a table whose index-1 row
passes both thresholds the output is one shorter than the passing
count. -/
theorem structural_drop_unconditional_witness :
    STAGE1 exT10a = none ∧
    ((STAGE1 exT10).getD []).length = exT10.countP passes - 1 :=
  ⟨structural_drop_unconditional.1 exT10a (by decide),
   structural_drop_unconditional.2 exR0 exR1 [exR2] ((STAGE1 exT10).getD [])
     (by decide) (by decide)⟩
